import Mathlib

/-!
Shallow embedding of the dividend/low-volatility ETF strategy of main.py:
the signal engine (calculate_return_diff, lines 138-216), the historical
signal labelling (show_signal_statistics, lines 548-577) and the backtest
simulator (run_backtest, lines 429-493).  Python floats are modelled as
rationals, a float NaN as Option.none, and pandas timestamps as
(month index, day) pairs over a fixed non-leap calendar.
-/

namespace DividendLowVol

/-- A calendar date: a month index counted from a fixed epoch and a 1-based
day within the month.  Leap years are not modelled; no property below
depends on them. -/
structure Date where
  month : Nat
  day : Nat
deriving DecidableEq, Repr

/-- Strict lexicographic order on dates. -/
def Date.blt (a b : Date) : Bool :=
  decide (a.month < b.month ∨ (a.month = b.month ∧ a.day < b.day))

/-- Lexicographic order on dates. -/
def Date.ble (a b : Date) : Bool :=
  decide (a.month < b.month ∨ (a.month = b.month ∧ a.day ≤ b.day))

/-- Number of days of a calendar month (Gregorian, non-leap cycle). -/
def monthLen (m : Nat) : Nat :=
  [31, 28, 31, 30, 31, 30, 31, 31, 30, 31, 30, 31].getD (m % 12) 31

/-- The month-end date of month m, as produced by a month-end frequency
date range. -/
def monthEnd (m : Nat) : Date := ⟨m, monthLen m⟩

/-- Whether a date is the last day of its month. -/
def Date.isMonthEnd (d : Date) : Bool := d.day == monthLen d.month

/-- The month-end date range of main.py line 447 (freq "M"): all calendar
month-end dates lying in the closed interval from a to b, in increasing
order. -/
def dateRangeM (a b : Date) : List Date :=
  ((List.range (b.month + 1)).map monthEnd).filter fun d => a.ble d && d.ble b

/-- The three-state trading signal. -/
inductive Signal where
  | buy
  | hold
  | sell
deriving DecidableEq, Repr

/-- Threshold classification of a return differential (main.py lines
203-214): a diff at most the buy threshold is a buy, a diff at least the
sell threshold is a sell, anything in between is a hold; both comparisons
are inclusive. -/
def classify (d buyT sellT : ℚ) : Signal :=
  if d ≤ buyT then .buy
  else if sellT ≤ d then .sell
  else .hold

/-- Classification of a possibly-undefined differential: a float NaN
compares false against both thresholds in the source, so an undefined diff
falls through to hold. -/
def classifyOpt (d : Option ℚ) (buyT sellT : ℚ) : Signal :=
  match d with
  | none => .hold
  | some x => classify x buyT sellT

/-- Historical signal labelling of show_signal_statistics (lines 555-557):
start from hold, overwrite with buy where the diff is at most the buy
threshold, then overwrite with sell where it is at least the sell
threshold; the sell mask is applied last, so it wins where both apply. -/
def histSignal (d buyT sellT : ℚ) : Signal :=
  if sellT ≤ d then Signal.sell
  else if d ≤ buyT then Signal.buy
  else Signal.hold

/-- Numeric coercion plus dropna on a (date, close) series (lines 153-158):
rows whose close failed numeric coercion (modelled as none) are removed. -/
def dropnaSeries (xs : List (Date × Option ℚ)) : List (Date × ℚ) :=
  xs.filterMap fun p => p.2.map fun v => (p.1, v)

/-- The inner merge on trade date of line 161, for series with unique
dates: keep the left rows whose date also occurs on the right, pairing the
two closes. -/
def innerJoin (a b : List (Date × ℚ)) : List (Date × ℚ × ℚ) :=
  a.filterMap fun p => (b.lookup p.1).map fun v => (p.1, p.2, v)

/-- The aligned series handed to the signal computation: both inputs
cleaned, then inner-joined on trade date. -/
def mergeSeries (hl bench : List (Date × Option ℚ)) : List (Date × ℚ × ℚ) :=
  innerJoin (dropnaSeries hl) (dropnaSeries bench)

/-- The N-day rolling percentage change of lines 178-179: entry i is price
i over price (i minus N), minus one, when i is at least N, and undefined
(NaN) otherwise. -/
def pctChange (N : Nat) (xs : List ℚ) : List (Option ℚ) :=
  (List.range xs.length).map fun i =>
    if N ≤ i then some (xs.getD i 0 / xs.getD (i - N) 0 - 1) else none

/-- NaN-propagating subtraction of the two rolling-return columns
(line 182). -/
def optSub (a b : Option ℚ) : Option ℚ :=
  match a, b with
  | some x, some y => some (x - y)
  | _, _ => none

/-- The return_diff column of the merged frame. -/
def returnDiffs (N : Nat) (merged : List (Date × ℚ × ℚ)) : List (Option ℚ) :=
  ((pctChange N (merged.map fun t => t.2.1)).zip
    (pctChange N (merged.map fun t => t.2.2))).map fun t => optSub t.1 t.2

/-- Latest-diff fallback of lines 191-201: if the last diff is NaN,
substitute the second-to-last entry of the diff column when the frame has
more than one row, and zero otherwise.  The len argument is the merged
frame length tested at line 198. -/
def resolveLatest (len : Nat) (diffs : List (Option ℚ)) : Option ℚ :=
  match diffs.getLastD none with
  | some d => some d
  | none => if 1 < len then diffs.getD (len - 2) none else some 0

/-- Result of the signal computation: the merged frame, its diff column,
the classified signal and the fallback-resolved latest differential.  The
presentation strings (reason text and plot colour) are omitted. -/
structure SignalResult where
  merged : List (Date × ℚ × ℚ)
  diffs : List (Option ℚ)
  signal : Signal
  latest_diff : Option ℚ
deriving DecidableEq, Repr

/-- calculate_return_diff (lines 138-216) with data retrieval abstracted
into the two input series.  Returns none when the aligned series is shorter
than the return period (lines 163-165); the second guard models the
IndexError an empty frame would raise at the last-row access of line 192,
reachable only when N is zero. -/
def calculate_return_diff (N : Nat) (buyT sellT : ℚ)
    (hl bench : List (Date × Option ℚ)) : Option SignalResult :=
  let merged := mergeSeries hl bench
  if merged.length < N then none
  else if merged.isEmpty then none
  else
    let diffs := returnDiffs N merged
    let resolved := resolveLatest merged.length diffs
    some ⟨merged, diffs, classifyOpt resolved buyT sellT, resolved⟩

/-- One row of the frame passed to the backtest; return_diff is none where
the rolling window is not yet filled (NaN). -/
structure Row where
  trade_date : Date
  hl_close : ℚ
  benchmark_close : ℚ
  return_diff : Option ℚ
deriving DecidableEq, Repr

/-- A row of the valid series of line 437: the rows of the input frame
whose return_diff is defined. -/
structure ValidRow where
  trade_date : Date
  hl_close : ℚ
  benchmark_close : ℚ
  return_diff : ℚ
deriving DecidableEq, Repr

/-- The valid series: rows with a defined return differential, in order. -/
def validData (df : List Row) : List ValidRow :=
  df.filterMap fun r => r.return_diff.map fun d =>
    ⟨r.trade_date, r.hl_close, r.benchmark_close, d⟩

/-- Portfolio state of the simulation: cash and shares (lines 440-441). -/
structure PState where
  cash : ℚ
  shares : ℚ
deriving DecidableEq, Repr

/-- Signal decision at a checkpoint (lines 459-471): the signed investment
amount for the month and the signal class recorded for it. -/
def checkpointAmount (buyT sellT monthly d : ℚ) : ℚ × Signal :=
  if d ≤ buyT then (monthly * 2, .buy)
  else if sellT ≤ d then (-monthly, .sell)
  else (monthly, .hold)

/-- Trade execution (lines 473-483): a positive amount is invested in full
with no check of cash sufficiency; otherwise shares worth the absolute
amount are sold, capped at the current holding. -/
def executeTrade (p : PState) (amount price : ℚ) : PState :=
  if 0 < amount then
    ⟨p.cash - amount, p.shares + amount / price⟩
  else
    let sellShares := min (|amount| / price) p.shares
    ⟨p.cash + sellShares * price, p.shares - sellShares⟩

/-- One iteration of the loop body: the new portfolio state after the
checkpoint trade. -/
def backtestStep (buyT sellT monthly : ℚ) (p : PState) (r : ValidRow) : PState :=
  executeTrade p (checkpointAmount buyT sellT monthly r.return_diff).1 r.hl_close

/-- The portfolio states after each successive checkpoint. -/
def statesFrom (buyT sellT monthly : ℚ) (p : PState) : List ValidRow → List PState
  | [] => []
  | r :: rs =>
    let q := backtestStep buyT sellT monthly p r
    q :: statesFrom buyT sellT monthly q rs

/-- The monthly checkpoints of lines 447-455: the month-end dates between
the first and last valid dates, keeping only those that occur exactly as a
trading date and taking the first matching row; every other month is
skipped. -/
def checkpoints (valid : List ValidRow) : List ValidRow :=
  match valid.head?, valid.getLast? with
  | some f, some l =>
    (dateRangeM f.trade_date l.trade_date).filterMap fun d =>
      valid.find? fun r => r.trade_date == d
  | _, _ => []

/-- The checkpoints of a backtest input frame. -/
def checkpointList (df : List Row) : List ValidRow := checkpoints (validData df)

/-- The portfolio state after each checkpoint of a backtest run, starting
from the initial cash and zero shares. -/
def backtestStates (buyT sellT monthly initial : ℚ) (df : List Row) : List PState :=
  statesFrom buyT sellT monthly ⟨initial, 0⟩ (checkpointList df)

/-- The trajectories returned by run_backtest. -/
structure BacktestResult where
  portfolio_value : List ℚ
  benchmark_value : List ℚ
  signals : List Signal
deriving DecidableEq, Repr

/-- run_backtest (lines 429-493).  The none result models both the explicit
insufficient-data refusal of lines 433-435 and the IndexError an empty
valid series would raise at the first-row access of line 447. -/
def run_backtest (buyT sellT : ℚ) (data_df : Option (List Row))
    (initial monthly : ℚ) : Option BacktestResult :=
  match data_df with
  | none => none
  | some df =>
    if df.length < 100 then none
    else
      match (validData df).head? with
      | none => none
      | some f =>
        let cps := checkpointList df
        let states := backtestStates buyT sellT monthly initial df
        some ⟨(states.zip cps).map fun x => x.1.cash + x.1.shares * x.2.hl_close,
              cps.map fun r => initial * (r.benchmark_close / f.benchmark_close),
              cps.map fun r => (checkpointAmount buyT sellT monthly r.return_diff).2⟩

/-- A concrete backtest row with a defined zero differential. -/
def mkRow (m d : Nat) (hl bench : ℚ) : Row := ⟨⟨m, d⟩, hl, bench, some 0⟩

/-- A concrete 100-trading-day frame over four months: the tracked price is
flat at 1 for two months and then drops to a quarter; the benchmark is flat
and every differential is zero (a hold signal throughout). -/
def demoDf : List Row :=
  ((List.range 31).map fun i => mkRow 0 (i + 1) 1 1) ++
  ((List.range 28).map fun i => mkRow 1 (i + 1) 1 1) ++
  ((List.range 31).map fun i => mkRow 2 (i + 1) (1/4) 1) ++
  ((List.range 10).map fun i => mkRow 3 (i + 1) (1/4) 1)

/-- A concrete 100-trading-day frame whose benchmark price doubles right
after the first day and stays there; every differential is zero. -/
def benchDf : List Row :=
  mkRow 0 1 1 1 ::
  (((List.range 30).map fun i => mkRow 0 (i + 2) 1 2) ++
   ((List.range 28).map fun i => mkRow 1 (i + 1) 1 2) ++
   ((List.range 31).map fun i => mkRow 2 (i + 1) 1 2) ++
   ((List.range 10).map fun i => mkRow 3 (i + 1) 1 2))

section

attribute [local semireducible] Rat.add Rat.sub Rat.mul Rat.inv

/-- C1: for thresholds with the buy threshold below the sell threshold, the
classification of a return differential is buy when the diff is at most the
buy threshold, sell when it is at least the sell threshold, and hold
strictly in between; both boundary comparisons are inclusive (a diff equal
to a threshold resolves to the action), and the historical labelling of
show_signal_statistics agrees with the latest-signal classification. -/
theorem C1_threshold_classification (d buyT sellT : ℚ) (h : buyT < sellT) :
    (d ≤ buyT → classify d buyT sellT = Signal.buy) ∧
    (sellT ≤ d → classify d buyT sellT = Signal.sell) ∧
    (buyT < d → d < sellT → classify d buyT sellT = Signal.hold) ∧
    classify buyT buyT sellT = Signal.buy ∧
    classify sellT buyT sellT = Signal.sell ∧
    histSignal d buyT sellT = classify d buyT sellT := by
  unfold classify histSignal
  refine ⟨fun h1 => ?_, fun h1 => ?_, fun h1 h2 => ?_, ?_, ?_, ?_⟩
  · rw [if_pos h1]
  · rw [if_neg (by linarith), if_pos h1]
  · rw [if_neg (by linarith), if_neg (by linarith)]
  · rw [if_pos le_rfl]
  · rw [if_neg (by linarith), if_pos le_rfl]
  · by_cases h1 : sellT ≤ d
    · rw [if_pos h1, if_neg (by linarith), if_pos h1]
    · by_cases h2 : d ≤ buyT
      · rw [if_neg h1, if_pos h2, if_pos h2]
      · rw [if_neg h1, if_neg h2, if_neg h2, if_neg h1]

/-- Witness for C1 at a zero diff and the default thresholds. -/
theorem C1_threshold_classification_witness :
    ((0 : ℚ) ≤ -1/100 → classify 0 (-1/100) (1/10) = Signal.buy) ∧
    ((1/10 : ℚ) ≤ 0 → classify 0 (-1/100) (1/10) = Signal.sell) ∧
    ((-1/100 : ℚ) < 0 → (0 : ℚ) < 1/10 → classify 0 (-1/100) (1/10) = Signal.hold) ∧
    classify (-1/100) (-1/100) (1/10) = Signal.buy ∧
    classify (1/10) (-1/100) (1/10) = Signal.sell ∧
    histSignal 0 (-1/100) (1/10) = classify 0 (-1/100) (1/10) :=
  C1_threshold_classification 0 (-1/100) (1/10) (by norm_num)

/-- C8: whenever the date-aligned inner join of the two cleaned input
series is shorter than the return period, calculate_return_diff reports the
insufficient-data failure and produces no partial result. -/
theorem C8_insufficient_data (N : Nat) (buyT sellT : ℚ)
    (hl bench : List (Date × Option ℚ))
    (h : (mergeSeries hl bench).length < N) :
    calculate_return_diff N buyT sellT hl bench = none := by
  unfold calculate_return_diff
  simp [h]

/-- Witness for C8: two empty input series against a one-day window. -/
theorem C8_insufficient_data_witness :
    (mergeSeries ([] : List (Date × Option ℚ)) []).length < 1 ∧
    calculate_return_diff 1 (-1/100) (1/10) [] [] = none :=
  ⟨by decide, C8_insufficient_data 1 (-1/100) (1/10) [] [] (by decide)⟩

/-- C9: run_backtest refuses to run on a missing input frame or on a frame
with fewer than 100 observations, returning no trajectories at all. -/
theorem C9_backtest_refusal (buyT sellT initial monthly : ℚ)
    (df : Option (List Row))
    (h : df = none ∨ ∃ l, df = some l ∧ l.length < 100) :
    run_backtest buyT sellT df initial monthly = none := by
  rcases h with rfl | ⟨l, rfl, hl⟩
  · rfl
  · unfold run_backtest
    simp [hl]

/-- Witness for C9: a one-row frame is refused. -/
theorem C9_backtest_refusal_witness :
    run_backtest (-1/100) (1/10) (some [mkRow 0 1 1 1]) 10000 1000 = none :=
  C9_backtest_refusal (-1/100) (1/10) 10000 1000 (some [mkRow 0 1 1 1])
    (Or.inr ⟨[mkRow 0 1 1 1], rfl, by decide⟩)

/-- A positive-amount trade adds the bought shares and deducts the full
amount from cash, with no reference to the cash balance. -/
lemma executeTrade_pos (p : PState) (amount price : ℚ) (h : 0 < amount) :
    executeTrade p amount price = ⟨p.cash - amount, p.shares + amount / price⟩ := by
  unfold executeTrade
  simp [h]

/-- C10: run_backtest never checks cash sufficiency: any positive
investment amount is deducted from cash in full, unconditionally, and on a
concrete input (the demo frame with a 10000 monthly contribution) the cash
balance after the second checkpoint is negative. -/
theorem C10_cash_unchecked :
    (∀ (p : PState) (amount price : ℚ), 0 < amount →
      executeTrade p amount price = ⟨p.cash - amount, p.shares + amount / price⟩) ∧
    ((backtestStates (-1/100) (1/10) 10000 10000 demoDf).map PState.cash).getD 1 0 < 0 := by
  exact ⟨executeTrade_pos, by decide⟩

/-- Witness for C10: a concrete purchase from a 500-cash state goes 500
into debt. -/
theorem C10_cash_unchecked_witness :
    executeTrade ⟨500, 0⟩ 1000 1 = ⟨-500, 1000⟩ := by
  rw [C10_cash_unchecked.1 ⟨500, 0⟩ 1000 1 (by norm_num)]
  norm_num

/-- Share balance stays nonnegative through one trade at a positive price. -/
lemma executeTrade_shares_nonneg (p : PState) (amount price : ℚ)
    (hpr : 0 < price) (hp : 0 ≤ p.shares) :
    0 ≤ (executeTrade p amount price).shares := by
  unfold executeTrade
  split_ifs with h
  · have h2 : 0 ≤ amount / price := le_of_lt (div_pos h hpr)
    simpa using add_nonneg hp h2
  · simp only []
    exact sub_nonneg.mpr (min_le_right (|amount| / price) p.shares)

/-- Share balance stays nonnegative along the whole simulated trajectory
when prices are positive. -/
lemma statesFrom_shares_nonneg (buyT sellT monthly : ℚ) :
    ∀ (rs : List ValidRow) (p : PState),
      (∀ r ∈ rs, 0 < r.hl_close) → 0 ≤ p.shares →
      ∀ q ∈ statesFrom buyT sellT monthly p rs, 0 ≤ q.shares := by
  intro rs
  induction rs with
  | nil => intro p _ _ q hq; simp [statesFrom] at hq
  | cons r rs ih =>
    intro p hpos hp q hq
    simp only [statesFrom, List.mem_cons] at hq
    have hq0 : 0 ≤ (backtestStep buyT sellT monthly p r).shares :=
      executeTrade_shares_nonneg _ _ _ (hpos r (by simp)) hp
    rcases hq with rfl | hq
    · exact hq0
    · exact ih _ (fun x hx => hpos x (by simp [hx])) hq0 q hq

/-- Positivity of the tracked price transfers from the input frame to the
valid series. -/
lemma validData_hl_pos (df : List Row) (hpos : ∀ r ∈ df, 0 < r.hl_close) :
    ∀ v ∈ validData df, 0 < v.hl_close := by
  intro v hv
  simp only [validData, List.mem_filterMap] at hv
  obtain ⟨r, hr, he⟩ := hv
  rcases Option.map_eq_some'.1 he with ⟨d, _, he2⟩
  have : v.hl_close = r.hl_close := by rw [← he2]
  rw [this]
  exact hpos r hr

/-- Every checkpoint row is a row of the valid series. -/
lemma checkpoints_subset (valid : List ValidRow) :
    ∀ r ∈ checkpoints valid, r ∈ valid := by
  intro r hr
  unfold checkpoints at hr
  split at hr
  · rcases List.mem_filterMap.1 hr with ⟨d, _, hfind⟩
    exact List.mem_of_find?_eq_some hfind
  · simp at hr

/-- C5: starting from zero shares, every checkpoint transition of the
backtest (buy, hold or sell) leaves the share balance nonnegative, because
a sell divests at most the currently held shares; stated for positive price
series. -/
theorem C5_shares_never_negative (buyT sellT initial monthly : ℚ)
    (df : List Row) (hpos : ∀ r ∈ df, 0 < r.hl_close) :
    ∀ p ∈ backtestStates buyT sellT monthly initial df, 0 ≤ p.shares := by
  intro p hp
  have hcp : ∀ r ∈ checkpointList df, 0 < r.hl_close := fun r hr =>
    validData_hl_pos df hpos r (checkpoints_subset _ r hr)
  exact statesFrom_shares_nonneg buyT sellT monthly _ ⟨initial, 0⟩ hcp (le_refl 0) p hp

/-- Witness for C5 on the demo frame: the share balance after the last
checkpoint is nonnegative. -/
theorem C5_shares_never_negative_witness :
    0 ≤ ((backtestStates (-1/100) (1/10) 10000 10000 demoDf).getD 2 ⟨0, 0⟩).shares :=
  C5_shares_never_negative (-1/100) (1/10) 10000 10000 demoDf (by decide) _ (by decide)

/-- C6: at a checkpoint the portfolio update matches the signal class
exactly: a buy-class diff invests twice the monthly amount, a hold-class
diff invests it once (same formula), and a sell-class diff divests the
monthly amount worth of shares capped at the current holding; stated for a
positive monthly amount, a positive price and ordered thresholds. -/
theorem C6_trade_matches_signal (buyT sellT monthly : ℚ) (p : PState) (r : ValidRow)
    (hbs : buyT < sellT) (hm : 0 < monthly) (_hp : 0 < r.hl_close) :
    (r.return_diff ≤ buyT →
      backtestStep buyT sellT monthly p r =
        ⟨p.cash - monthly * 2, p.shares + monthly * 2 / r.hl_close⟩ ∧
      (checkpointAmount buyT sellT monthly r.return_diff).2 = Signal.buy) ∧
    (sellT ≤ r.return_diff →
      backtestStep buyT sellT monthly p r =
        ⟨p.cash + min (monthly / r.hl_close) p.shares * r.hl_close,
         p.shares - min (monthly / r.hl_close) p.shares⟩ ∧
      (checkpointAmount buyT sellT monthly r.return_diff).2 = Signal.sell) ∧
    (buyT < r.return_diff → r.return_diff < sellT →
      backtestStep buyT sellT monthly p r =
        ⟨p.cash - monthly, p.shares + monthly / r.hl_close⟩ ∧
      (checkpointAmount buyT sellT monthly r.return_diff).2 = Signal.hold) := by
  refine ⟨fun h1 => ?_, fun h1 => ?_, fun h1 h2 => ?_⟩
  · have hb : 0 < monthly * 2 := by linarith
    refine ⟨?_, by unfold checkpointAmount; rw [if_pos h1]⟩
    have hstep : backtestStep buyT sellT monthly p r =
        executeTrade p (monthly * 2) r.hl_close := by
      unfold backtestStep checkpointAmount
      rw [if_pos h1]
    rw [hstep]
    exact executeTrade_pos p (monthly * 2) r.hl_close hb
  · have hnb : ¬ r.return_diff ≤ buyT := by linarith
    have hns : ¬ (0 : ℚ) < -monthly := by linarith
    have habs : |(-monthly : ℚ)| = monthly := by
      rw [abs_neg]
      exact abs_of_pos hm
    refine ⟨?_, by unfold checkpointAmount; rw [if_neg hnb, if_pos h1]⟩
    have hstep : backtestStep buyT sellT monthly p r =
        executeTrade p (-monthly) r.hl_close := by
      unfold backtestStep checkpointAmount
      rw [if_neg hnb, if_pos h1]
    rw [hstep]
    unfold executeTrade
    rw [if_neg hns]
    simp only [habs]
  · have hnb : ¬ r.return_diff ≤ buyT := by linarith
    have hns : ¬ sellT ≤ r.return_diff := by linarith
    refine ⟨?_, by unfold checkpointAmount; rw [if_neg hnb, if_neg hns]⟩
    have hstep : backtestStep buyT sellT monthly p r =
        executeTrade p monthly r.hl_close := by
      unfold backtestStep checkpointAmount
      rw [if_neg hnb, if_neg hns]
    rw [hstep]
    exact executeTrade_pos p monthly r.hl_close hm

/-- Witness for C6 at a hold-class diff of zero with default parameters. -/
theorem C6_trade_matches_signal_witness :
    backtestStep (-1/100) (1/10) 1000 ⟨10000, 0⟩ ⟨⟨0, 31⟩, 1, 1, 0⟩ =
      ⟨(10000 : ℚ) - 1000, (0 : ℚ) + 1000 / 1⟩ ∧
    (checkpointAmount (-1/100) (1/10) 1000 (0 : ℚ)).2 = Signal.hold :=
  (C6_trade_matches_signal (-1/100) (1/10) 1000 ⟨10000, 0⟩ ⟨⟨0, 31⟩, 1, 1, 0⟩
    (by norm_num) (by norm_num) (by norm_num)).2.2 (by norm_num) (by norm_num)

/-- For an index below the list length, getD commutes with map. -/
lemma getD_map_of_lt {α β : Type} (g : α → β) (l : List α) (k : Nat) (d : α) (d2 : β)
    (hk : k < l.length) : (l.map g).getD k d2 = g (l.getD k d) := by
  rw [List.getD_eq_getElem?_getD, List.getD_eq_getElem?_getD,
      List.getElem?_map, List.getElem?_eq_getElem hk]
  rfl

/-- C4 counterexample: on the demo frame with a 10000 monthly contribution,
under the default thresholds (all checkpoints are hold-class and every sell
cap is vacuously respected), the strategy portfolio value at the third
checkpoint is minus 5000: the claim that the portfolio value is never
negative is false on the code. -/
theorem C4_counterexample :
    (run_backtest (-1/100) (1/10) (some demoDf) 10000 10000).map
        (fun r => r.portfolio_value.getD 2 0) = some (-5000) ∧
    ¬ (0 : ℚ) ≤ -5000 := by
  exact ⟨by decide, by norm_num⟩

/-- C4 amended: for positive price series, the portfolio value reported at
each checkpoint equals cash plus shares times price for the state after
that checkpoint, and it is bounded below by the cash balance (the share
component is never negative); the total can still be negative, but only
through a negative cash balance. -/
theorem C4_value_dominates_cash (buyT sellT initial monthly : ℚ)
    (df : List Row) (res : BacktestResult)
    (hpos : ∀ r ∈ df, 0 < r.hl_close)
    (hres : run_backtest buyT sellT (some df) initial monthly = some res) :
    res.portfolio_value =
      ((backtestStates buyT sellT monthly initial df).zip (checkpointList df)).map
        (fun x => x.1.cash + x.1.shares * x.2.hl_close) ∧
    ∀ x ∈ (backtestStates buyT sellT monthly initial df).zip (checkpointList df),
      x.1.cash ≤ x.1.cash + x.1.shares * x.2.hl_close := by
  constructor
  · simp only [run_backtest] at hres
    split at hres
    · exact absurd hres (by simp)
    · split at hres
      · exact absurd hres (by simp)
      · rw [← Option.some_inj.1 hres]
  · intro x hx
    have hmem := List.of_mem_zip hx
    have hcp : ∀ r ∈ checkpointList df, 0 < r.hl_close := fun r hr =>
      validData_hl_pos df hpos r (checkpoints_subset _ r hr)
    have hs : 0 ≤ x.1.shares :=
      statesFrom_shares_nonneg buyT sellT monthly _ ⟨initial, 0⟩ hcp (le_refl 0) x.1 hmem.1
    have hpr : 0 < x.2.hl_close := hcp x.2 hmem.2
    linarith [mul_nonneg hs hpr.le]

/-- Witness for the amended C4 on the demo frame: the reported trajectory
equals the cash-plus-shares-times-price trajectory. -/
theorem C4_value_dominates_cash_witness :
    (BacktestResult.mk [10000, 10000, -5000] [10000, 10000, 10000]
        [Signal.hold, Signal.hold, Signal.hold]).portfolio_value =
      ((backtestStates (-1/100) (1/10) 10000 10000 demoDf).zip
        (checkpointList demoDf)).map
        (fun x => x.1.cash + x.1.shares * x.2.hl_close) :=
  (C4_value_dominates_cash (-1/100) (1/10) 10000 10000 demoDf
    ⟨[10000, 10000, -5000], [10000, 10000, 10000],
     [Signal.hold, Signal.hold, Signal.hold]⟩ (by decide) (by decide)).1

/-- The benchmark trajectory formula as claim C2 states it, following the
spec's words: the initial investment scaled by the benchmark's cumulative
return since the first checkpoint.  Declared only for comparison with the
source's formula, which scales from the first valid row instead. -/
def specBenchmarkC2 (initial : ℚ) (cps : List ValidRow) (k : Nat) : ℚ :=
  initial * ((cps.getD k ⟨⟨0, 1⟩, 1, 1, 0⟩).benchmark_close /
             (cps.getD 0 ⟨⟨0, 1⟩, 1, 1, 0⟩).benchmark_close)

/-- C2 counterexample: on a frame whose benchmark price doubles right after
the first valid day, the source's benchmark value at the first checkpoint
is 20000 (scaled from the first valid row), while the claim's formula
(scaled from the first checkpoint) gives 10000: the claim as stated is
false on the code. -/
theorem C2_counterexample :
    (run_backtest (-1/100) (1/10) (some benchDf) 10000 1000).map
        (fun r => r.benchmark_value.getD 0 0) = some 20000 ∧
    specBenchmarkC2 10000 (checkpointList benchDf) 0 = 10000 ∧
    (20000 : ℚ) ≠ 10000 := by
  refine ⟨by decide, by decide, by norm_num⟩

/-- C2 amended: the benchmark value at checkpoint k equals the initial
investment times the benchmark price at that checkpoint divided by the
benchmark price at the first row of the valid (diff-defined) series, which
is in general earlier than the first checkpoint; no periodic contribution
enters the formula. -/
theorem C2_benchmark_from_first_valid (buyT sellT initial monthly : ℚ)
    (df : List Row) (f : ValidRow) (k : Nat)
    (hlen : ¬ df.length < 100)
    (hf : (validData df).head? = some f)
    (hk : k < (checkpointList df).length) :
    (run_backtest buyT sellT (some df) initial monthly).map
        (fun r => r.benchmark_value.getD k 0) =
      some (initial *
        (((checkpointList df).getD k ⟨⟨0, 1⟩, 1, 1, 0⟩).benchmark_close /
          f.benchmark_close)) := by
  simp only [run_backtest, if_neg hlen, hf, Option.map_some']
  rw [getD_map_of_lt _ _ _ ⟨⟨0, 1⟩, 1, 1, 0⟩ _ hk]

/-- Witness for the amended C2 on the demo frame at the first checkpoint. -/
theorem C2_benchmark_from_first_valid_witness :
    (run_backtest (-1/100) (1/10) (some demoDf) 10000 1000).map
        (fun r => r.benchmark_value.getD 0 0) =
      some (10000 *
        (((checkpointList demoDf).getD 0 ⟨⟨0, 1⟩, 1, 1, 0⟩).benchmark_close /
          (ValidRow.mk ⟨0, 1⟩ 1 1 0).benchmark_close)) :=
  C2_benchmark_from_first_valid (-1/100) (1/10) 10000 1000 demoDf
    ⟨⟨0, 1⟩, 1, 1, 0⟩ 0 (by decide) (by decide) (by decide)

/-- C3 counterexample: with a zero buy threshold (allowed by the
configuration surface, which only requires the buy threshold to be at most
zero), a single-row aligned series and a one-day window, the latest diff is
undefined and no prior row exists, the diff is treated as zero, and the
resulting signal is buy, not hold: the claim as stated is false on the
code. -/
theorem C3_counterexample :
    (calculate_return_diff 1 0 (1/10) [(⟨0, 1⟩, some 1)] [(⟨0, 1⟩, some 1)]).map
        SignalResult.signal = some Signal.buy ∧
    Signal.buy ≠ Signal.hold := by
  exact ⟨by decide, by decide⟩

/-- C3 amended: when the signal computation succeeds and the most recent
differential is undefined, the fallback substitutes the diff of the
immediately preceding row when the series has more than one row (whether or
not that diff is itself defined; an undefined substitute classifies as
hold), and treats the diff as zero when the series has a single row, in
which case the signal is the threshold classification of zero (hold
whenever the buy threshold is negative, buy when it is zero); the fallback
always yields a result, never an error surfaced to the caller. -/
theorem C3_latest_fallback (N : Nat) (buyT sellT : ℚ)
    (hl bench : List (Date × Option ℚ))
    (hN : ¬ (mergeSeries hl bench).length < N)
    (hne : (mergeSeries hl bench).isEmpty = false)
    (hlast : (returnDiffs N (mergeSeries hl bench)).getLastD none = none) :
    calculate_return_diff N buyT sellT hl bench =
      some ⟨mergeSeries hl bench, returnDiffs N (mergeSeries hl bench),
        classifyOpt (resolveLatest (mergeSeries hl bench).length
          (returnDiffs N (mergeSeries hl bench))) buyT sellT,
        resolveLatest (mergeSeries hl bench).length
          (returnDiffs N (mergeSeries hl bench))⟩ ∧
    resolveLatest (mergeSeries hl bench).length
        (returnDiffs N (mergeSeries hl bench)) =
      (if 1 < (mergeSeries hl bench).length
       then (returnDiffs N (mergeSeries hl bench)).getD
              ((mergeSeries hl bench).length - 2) none
       else some 0) ∧
    (resolveLatest (mergeSeries hl bench).length
        (returnDiffs N (mergeSeries hl bench)) = none →
      classifyOpt (resolveLatest (mergeSeries hl bench).length
        (returnDiffs N (mergeSeries hl bench))) buyT sellT = Signal.hold) := by
  refine ⟨?_, ?_, ?_⟩
  · simp only [calculate_return_diff, if_neg hN, hne]
    simp
  · unfold resolveLatest
    rw [hlast]
  · intro h
    rw [h]
    rfl

/-- Witness for the amended C3: a one-row series against a one-day window
under the default thresholds. -/
theorem C3_latest_fallback_witness :
    calculate_return_diff 1 (-1/100) (1/10) [(⟨0, 1⟩, some 1)] [(⟨0, 1⟩, some 1)] =
      some ⟨mergeSeries [(⟨0, 1⟩, some 1)] [(⟨0, 1⟩, some 1)],
        returnDiffs 1 (mergeSeries [(⟨0, 1⟩, some 1)] [(⟨0, 1⟩, some 1)]),
        classifyOpt (resolveLatest
          (mergeSeries [(⟨0, 1⟩, some 1)] [(⟨0, 1⟩, some 1)]).length
          (returnDiffs 1 (mergeSeries [(⟨0, 1⟩, some 1)] [(⟨0, 1⟩, some 1)])))
          (-1/100) (1/10),
        resolveLatest (mergeSeries [(⟨0, 1⟩, some 1)] [(⟨0, 1⟩, some 1)]).length
          (returnDiffs 1 (mergeSeries [(⟨0, 1⟩, some 1)] [(⟨0, 1⟩, some 1)]))⟩ :=
  (C3_latest_fallback 1 (-1/100) (1/10) [(⟨0, 1⟩, some 1)] [(⟨0, 1⟩, some 1)]
    (by decide) (by decide) (by decide)).1

/-- The strict date order is irreflexive. -/
lemma Date.blt_irrefl (a : Date) : ¬ a.blt a = true := by
  simp [Date.blt]

/-- The strict date order is transitive. -/
lemma Date.blt_trans {a b c : Date} (h1 : a.blt b = true) (h2 : b.blt c = true) :
    a.blt c = true := by
  simp only [Date.blt, decide_eq_true_eq] at *
  omega

/-- The strict date order implies the reflexive one. -/
lemma Date.ble_of_blt {a b : Date} (h : a.blt b = true) : a.ble b = true := by
  simp only [Date.blt, Date.ble, decide_eq_true_eq] at *
  omega

/-- The reflexive date order is reflexive. -/
lemma Date.ble_refl (a : Date) : a.ble a = true := by
  simp [Date.ble]

/-- Two lists sorted by an irreflexive transitive relation and having the
same members are equal. -/
lemma pairwise_eq_of_mem_iff {α : Type} {R : α → α → Prop}
    (htrans : ∀ {a b c : α}, R a b → R b c → R a c) (hirr : ∀ a : α, ¬ R a a) :
    ∀ (l1 l2 : List α), l1.Pairwise R → l2.Pairwise R →
      (∀ x, x ∈ l1 ↔ x ∈ l2) → l1 = l2 := by
  intro l1
  induction l1 with
  | nil =>
    intro l2 _ _ hm
    cases l2 with
    | nil => rfl
    | cons b t => exact absurd ((hm b).2 (by simp)) (by simp)
  | cons a t ih =>
    intro l2 h1 h2 hm
    cases l2 with
    | nil => exact absurd ((hm a).1 (by simp)) (by simp)
    | cons b t2 =>
      have h1' := List.pairwise_cons.1 h1
      have h2' := List.pairwise_cons.1 h2
      have hab : a = b := by
        have ha : a ∈ b :: t2 := (hm a).1 (by simp)
        have hb : b ∈ a :: t := (hm b).2 (by simp)
        rcases List.mem_cons.1 ha with h | ha2
        · exact h
        · rcases List.mem_cons.1 hb with h | hb2
          · exact h.symm
          · exact absurd (htrans (h2'.1 a ha2) (h1'.1 b hb2)) (hirr b)
      subst hab
      have hm2 : ∀ x, x ∈ t ↔ x ∈ t2 := by
        intro x
        constructor
        · intro hx
          rcases List.mem_cons.1 ((hm x).1 (List.mem_cons_of_mem a hx)) with h | h
          · subst h
            exact absurd (h1'.1 x hx) (hirr x)
          · exact h
        · intro hx
          rcases List.mem_cons.1 ((hm x).2 (List.mem_cons_of_mem a hx)) with h | h
          · subst h
            exact absurd (h2'.1 x hx) (hirr x)
          · exact h
      rw [ih t2 h1'.2 h2'.2 hm2]

/-- Membership in the month-end date range: exactly the month-end dates in
the closed interval. -/
lemma mem_dateRangeM {a b d : Date} :
    d ∈ dateRangeM a b ↔
      d.isMonthEnd = true ∧ a.ble d = true ∧ d.ble b = true := by
  unfold dateRangeM
  simp only [List.mem_filter, List.mem_map, List.mem_range, Bool.and_eq_true]
  constructor
  · rintro ⟨⟨m, _, rfl⟩, h1, h2⟩
    refine ⟨?_, h1, h2⟩
    simp [Date.isMonthEnd, monthEnd]
  · rintro ⟨hme, h1, h2⟩
    refine ⟨⟨d.month, ?_, ?_⟩, h1, h2⟩
    · simp only [Date.ble, decide_eq_true_eq] at h2
      omega
    · simp only [Date.isMonthEnd, beq_iff_eq] at hme
      cases d with
      | mk m dd =>
        simp only [monthEnd]
        simp only at hme
        rw [hme]

/-- The month-end date range is strictly sorted. -/
lemma pairwise_dateRangeM (a b : Date) :
    (dateRangeM a b).Pairwise fun x y => x.blt y = true := by
  unfold dateRangeM
  apply List.Pairwise.sublist (List.filter_sublist _)
  refine List.Pairwise.map monthEnd (fun m1 m2 h => ?_) (List.pairwise_lt_range _)
  simp only [monthEnd, Date.blt, decide_eq_true_eq]
  exact Or.inl h

/-- In a strictly date-sorted list, searching by the date of a member finds
exactly that member. -/
lemma find?_date_eq {valid : List ValidRow} {r : ValidRow}
    (hs : valid.Pairwise fun x y => x.trade_date.blt y.trade_date = true)
    (hr : r ∈ valid) :
    valid.find? (fun x => x.trade_date == r.trade_date) = some r := by
  induction valid with
  | nil => simp at hr
  | cons a t ih =>
    have h1 := List.pairwise_cons.1 hs
    rcases List.mem_cons.1 hr with rfl | hmem
    · rw [List.find?_cons_of_pos _ (by simp)]
    · have hne : a.trade_date ≠ r.trade_date := by
        intro he
        have hlt := h1.1 r hmem
        rw [he] at hlt
        exact Date.blt_irrefl _ hlt
      rw [List.find?_cons_of_neg _ (by simp [hne])]
      exact ih h1.2 hmem

/-- Every member of a sorted list is bounded below by the head date. -/
lemma head_ble_of_sorted {valid : List ValidRow} {f r : ValidRow}
    (hs : valid.Pairwise fun x y => x.trade_date.blt y.trade_date = true)
    (hf : valid.head? = some f) (hr : r ∈ valid) :
    f.trade_date.ble r.trade_date = true := by
  cases valid with
  | nil => simp at hf
  | cons a t =>
    have haf : a = f := by simpa using hf
    subst haf
    rcases List.mem_cons.1 hr with rfl | hmem
    · exact Date.ble_refl _
    · exact Date.ble_of_blt ((List.pairwise_cons.1 hs).1 r hmem)

/-- Every member of a sorted list is bounded above by the last date. -/
lemma ble_getLast_of_sorted {valid : List ValidRow} {l r : ValidRow}
    (hs : valid.Pairwise fun x y => x.trade_date.blt y.trade_date = true)
    (hl : valid.getLast? = some l) (hr : r ∈ valid) :
    r.trade_date.ble l.trade_date = true := by
  induction valid with
  | nil => simp at hr
  | cons a t ih =>
    cases t with
    | nil =>
      have hra : r = a := by simpa using hr
      have hla : a = l := by simpa using hl
      subst hra
      subst hla
      exact Date.ble_refl _
    | cons b t2 =>
      have hl2 : (b :: t2).getLast? = some l := by
        rw [List.getLast?_cons_cons] at hl
        exact hl
      rcases List.mem_cons.1 hr with rfl | hmem
      · have hlmem : l ∈ b :: t2 := by
          have := List.getLast?_eq_getLast (b :: t2) (by simp)
          rw [this] at hl2
          have hinj : (b :: t2).getLast (by simp) = l := by
            simpa using hl2
          rw [← hinj]
          exact List.getLast_mem _
        exact Date.ble_of_blt ((List.pairwise_cons.1 hs).1 l hlmem)
      · exact ih (List.pairwise_cons.1 hs).2 hl2 hmem

/-- The checkpoint rows inherit the strict date order from the date
range. -/
lemma pairwise_filterMap_dates {dates : List Date} {valid : List ValidRow}
    (hd : dates.Pairwise fun x y => x.blt y = true) :
    (dates.filterMap fun d => valid.find? fun r => r.trade_date == d).Pairwise
      fun x y => x.trade_date.blt y.trade_date = true := by
  induction dates with
  | nil => simp
  | cons d ds ih =>
    have h1 := List.pairwise_cons.1 hd
    cases hfind : valid.find? (fun r => r.trade_date == d) with
    | none =>
      rw [List.filterMap_cons, hfind]
      exact ih h1.2
    | some r =>
      rw [List.filterMap_cons, hfind]
      apply List.pairwise_cons.2
      refine ⟨?_, ih h1.2⟩
      intro y hy
      rcases List.mem_filterMap.1 hy with ⟨d2, hd2, hf2⟩
      have hrd : r.trade_date = d := by
        simpa [beq_iff_eq] using List.find?_some hfind
      have hyd : y.trade_date = d2 := by
        simpa [beq_iff_eq] using List.find?_some hf2
      rw [hrd, hyd]
      exact h1.1 d2 hd2

/-- C7: on a strictly date-sorted valid series, the backtest evaluates
exactly one checkpoint per calendar month-end date that occurs exactly as a
trading date, in order, and entirely skips every month whose month-end date
has no matching trading date: the checkpoint list is precisely the
month-end rows of the valid series. -/
theorem C7_checkpoints_are_monthend_rows (valid : List ValidRow)
    (hs : valid.Pairwise fun x y => x.trade_date.blt y.trade_date = true) :
    checkpoints valid = valid.filter fun r => r.trade_date.isMonthEnd := by
  cases hval : valid.head? with
  | none =>
    have hnil : valid = [] := by
      cases valid with
      | nil => rfl
      | cons a t => simp at hval
    subst hnil
    rfl
  | some f =>
    have hvne : valid ≠ [] := by
      intro hc
      subst hc
      simp at hval
    obtain ⟨l, hl⟩ : ∃ l, valid.getLast? = some l := by
      cases valid with
      | nil => exact absurd rfl hvne
      | cons a t => exact ⟨_, List.getLast?_eq_getLast _ (by simp)⟩
    have hcp : checkpoints valid =
        (dateRangeM f.trade_date l.trade_date).filterMap fun d =>
          valid.find? fun r => r.trade_date == d := by
      unfold checkpoints
      rw [hval, hl]
    rw [hcp]
    apply pairwise_eq_of_mem_iff (R := fun x y : ValidRow =>
        x.trade_date.blt y.trade_date = true)
      (fun hab hbc => Date.blt_trans hab hbc) (fun x => Date.blt_irrefl x.trade_date)
    · exact pairwise_filterMap_dates (pairwise_dateRangeM _ _)
    · exact hs.sublist (List.filter_sublist _)
    · intro x
      constructor
      · intro hx
        rcases List.mem_filterMap.1 hx with ⟨d, hd, hfind⟩
        have hxv : x ∈ valid := List.mem_of_find?_eq_some hfind
        have hxd : x.trade_date = d := by
          simpa [beq_iff_eq] using List.find?_some hfind
        have hme := (mem_dateRangeM.1 hd).1
        rw [List.mem_filter]
        refine ⟨hxv, ?_⟩
        rw [hxd]
        exact hme
      · intro hx
        rcases List.mem_filter.1 hx with ⟨hxv, hxme⟩
        apply List.mem_filterMap.2
        refine ⟨x.trade_date, ?_, find?_date_eq hs hxv⟩
        exact mem_dateRangeM.2
          ⟨hxme, head_ble_of_sorted hs hval hxv, ble_getLast_of_sorted hs hl hxv⟩

/-- Witness for C7: a three-day sorted series containing one month-end
trading date inside the month and one month whose end is missing. -/
theorem C7_checkpoints_are_monthend_rows_witness :
    checkpoints [⟨⟨0, 30⟩, 1, 1, 0⟩, ⟨⟨0, 31⟩, 1, 1, 0⟩, ⟨⟨1, 5⟩, 1, 1, 0⟩] =
      List.filter (fun r => r.trade_date.isMonthEnd)
        [⟨⟨0, 30⟩, 1, 1, 0⟩, ⟨⟨0, 31⟩, 1, 1, 0⟩, ⟨⟨1, 5⟩, 1, 1, 0⟩] :=
  C7_checkpoints_are_monthend_rows _ (by decide)

end

end DividendLowVol
